import Mathlib

set_option autoImplicit false

namespace OVG

/-! ## Sampler (src/llm/qwen_cpp/openvino_backend_api.cpp, `get_out_token_id`)

Logits are modelled as rational numbers, token ids as integers.  The RNG draw of
`std::discrete_distribution` is abstracted as an arbitrary in-range index choice,
and the `exp` used by softmax as an abstract function `φ` (the claims settled here
do not depend on its values). -/

/-- Generation parameters, translated from `ov_params` (src/unnamed/part_001). -/
structure Params where
  n_ctx : Nat := 2048
  n_predict : Nat := 512
  do_sample : Bool := true
  top_k : Int := 40
  top_p : ℚ := 9/10
  temperature : ℚ := 1/5
  repeat_penalty : ℚ := 11/10
  repeat_last_n : Int := 32
  seed : Int := -1

/-- Index of the first maximal element of a list, as computed by
`std::max_element(logits, logits + vocab_size) - logits` (the iterator only
advances past the current best on a strictly larger element, so ties resolve to
the lowest index). -/
def argmaxIdx : List ℚ → Nat
  | [] => 0
  | [_] => 0
  | x :: y :: ys =>
    if x < (y :: ys).getD (argmaxIdx (y :: ys)) 0 then argmaxIdx (y :: ys) + 1 else 0

/-- Modelled from the spec: `sampling_repetition_penalty` lives in `sampling.hpp`,
which is not part of this tree.  Spec §4.1: for each of the last
`penalty_tokens_used_size` history tokens, divide its logit by `penalty` if the
logit is positive, else multiply it by `penalty`. -/
def sampling_repetition_penalty (logits : List ℚ) (history_ids : List Int)
    (penalty_tokens_used_size : Nat) (penalty : ℚ) : List ℚ :=
  (history_ids.drop (history_ids.length - penalty_tokens_used_size)).foldl
    (fun lg id =>
      lg.set id.toNat
        (if 0 < lg.getD id.toNat 0 then lg.getD id.toNat 0 / penalty
         else lg.getD id.toNat 0 * penalty))
    logits

/-- Modelled from the spec: `sampling_temperature` lives in `sampling.hpp`, which
is not part of this tree.  Spec §4.1: divide all logits by the temperature. -/
def sampling_temperature (logits : List ℚ) (temp : ℚ) : List ℚ :=
  logits.map (fun v => v / temp)

/-- `TokenIdScore` pair from the sampling pipeline. -/
structure TokenIdScore where
  id : Int
  score : ℚ
deriving DecidableEq

/-- Comparator putting higher scores first; on equal scores the lower original
index comes first (spec §4.1: ties broken by original index ascending). -/
def tisGE (a b : TokenIdScore) : Bool :=
  decide (b.score < a.score ∨ (a.score = b.score ∧ a.id ≤ b.id))

/-- Modelled from the spec: `sampling_top_k` lives in `sampling.hpp`, which is
not part of this tree.  Spec §4.1: keep only the `k` highest-scoring pairs,
ties broken by original index ascending. -/
def sampling_top_k (scores : List TokenIdScore) (k : Nat) : List TokenIdScore :=
  (scores.mergeSort tisGE).take k

/-- Number of leading probability masses needed to accumulate at least
`threshold`, inclusive of the crossing element; the whole list if the threshold
is never reached. -/
def topPCount : List ℚ → ℚ → Nat
  | [], _ => 0
  | m :: ms, threshold => if threshold ≤ m then 1 else 1 + topPCount ms (threshold - m)

/-- Modelled from the spec: `sampling_top_p` lives in `sampling.hpp`, which is
not part of this tree.  Spec §4.1: sort the pairs by descending score,
accumulate softmax-normalized probability mass until the cumulative mass
reaches `top_p`, and truncate inclusively at the crossing token (spec §7: the
truncated candidate list always retains at least one token).  `φ` abstracts
`exp`. -/
def sampling_top_p (φ : ℚ → ℚ) (scores : List TokenIdScore) (top_p : ℚ) :
    List TokenIdScore :=
  let sorted := scores.mergeSort tisGE
  let total := (sorted.map (fun t => φ t.score)).sum
  sorted.take (topPCount (sorted.map (fun t => φ t.score / total)) top_p)

/-- Modelled from the spec: `sampling_softmax_inplace` lives in `sampling.hpp`,
which is not part of this tree.  Spec §4.1: softmax the remaining scores in
place.  `φ` abstracts `exp`. -/
def sampling_softmax_inplace (φ : ℚ → ℚ) (scores : List TokenIdScore) :
    List TokenIdScore :=
  let total := (scores.map (fun t => φ t.score)).sum
  scores.map (fun t => TokenIdScore.mk t.id (φ t.score / total))

/-- The logits pre-processing at the top of `get_out_token_id` (lines 16-24):
the repetition penalty is applied whenever `repeat_penalty != 1` and the
window `min(history size, repeat_last_n)` is non-zero — before and regardless
of the `do_sample` branch. -/
def preprocess_logits (history_ids : List Int) (logits : List ℚ) (p : Params) :
    List ℚ :=
  if p.repeat_penalty ≠ 1 then
    if min (history_ids.length : Int) p.repeat_last_n ≠ 0 then
      sampling_repetition_penalty logits history_ids
        (min (history_ids.length : Int) p.repeat_last_n).toNat p.repeat_penalty
    else logits
  else logits

/-- The logits entering the `do_sample` branch after the optional temperature
scaling (lines 28-31). -/
def scaled_logits (history_ids : List Int) (logits : List ℚ) (p : Params) :
    List ℚ :=
  if 0 < p.temperature then
    sampling_temperature (preprocess_logits history_ids logits p) p.temperature
  else preprocess_logits history_ids logits p

/-- The `token_scores` vector built from the processed logits (lines 33-37):
pair `i` carries id `i` and score `logits[i]`. -/
def token_scores_of (logits2 : List ℚ) : List TokenIdScore :=
  (List.range logits2.length).map (fun i => TokenIdScore.mk (Int.ofNat i) (logits2.getD i 0))

/-- The candidate list after the guarded top-k filtering (lines 39-45). -/
def after_top_k (history_ids : List Int) (logits : List ℚ)
    (p : Params) : List TokenIdScore :=
  if 0 < p.top_k ∧
      p.top_k < ((token_scores_of (scaled_logits history_ids logits p)).length : Int) then
    sampling_top_k (token_scores_of (scaled_logits history_ids logits p)) p.top_k.toNat
  else token_scores_of (scaled_logits history_ids logits p)

/-- The candidate list of the `do_sample` branch after temperature scaling,
top-k filtering and top-p filtering (lines 28-52), just before the softmax and
the categorical draw. -/
def candidate_scores (φ : ℚ → ℚ) (history_ids : List Int) (logits : List ℚ)
    (p : Params) : List TokenIdScore :=
  if 0 < p.top_p ∧ p.top_p < 1 then
    sampling_top_p φ (after_top_k history_ids logits p) p.top_p
  else after_top_k history_ids logits p

/-- `get_out_token_id` (lines 13-71).  `φ` abstracts `exp`; `choice` abstracts
the RNG draw of `std::discrete_distribution`, which always yields an index
below the candidate-list size (modelled by reducing `choice` modulo that
size). -/
def get_out_token_id (φ : ℚ → ℚ) (choice : Nat) (history_ids : List Int)
    (logits : List ℚ) (p : Params) : Int :=
  if p.do_sample then
    let ts2 := candidate_scores φ history_ids logits p
    let ts3 := sampling_softmax_inplace φ ts2
    (ts3.getD (choice % ts3.length) (TokenIdScore.mk 0 0)).id
  else
    Int.ofNat (argmaxIdx (preprocess_logits history_ids logits p))

/-! ## TextStreamer (src/unnamed/part_000, lines 56-85)

Decoded text is modelled as a byte list (`List Nat`); the external detokenizer
is an abstract function `decode : List Int → List Nat`.  `'\n'` is byte `10`
and the UTF-8 replacement character compared against by
`text.compare(text.size() - 3, 3, ...)` is the three bytes `239, 191, 189`. -/

/-- The three UTF-8 bytes of the replacement character. -/
def replacementMarker : List Nat := [239, 191, 189]

/-- `TextStreamer` state: the token cache and the printed length. -/
structure TextStreamer where
  token_cache : List Int
  print_len : Nat
deriving DecidableEq

/-- `TextStreamer::put` (lines 61-77): append the token, decode the whole
cache; on a trailing newline flush the unprinted suffix and clear; on a
trailing replacement marker emit nothing; otherwise emit the unprinted suffix
and remember the new printed length.  Returns the emitted bytes and the new
state. -/
def TextStreamer.put (decode : List Int → List Nat) (s : TextStreamer)
    (token : Int) : List Nat × TextStreamer :=
  let cache := s.token_cache ++ [token]
  let text := decode cache
  if text ≠ [] ∧ text.getLast? = some 10 then
    (text.drop s.print_len, TextStreamer.mk [] 0)
  else if 3 ≤ text.length ∧ text.drop (text.length - 3) = replacementMarker then
    ([], TextStreamer.mk cache s.print_len)
  else
    (text.drop s.print_len, TextStreamer.mk cache text.length)

/-- `TextStreamer::end` (lines 79-84): decode the cache, emit the unprinted
suffix plus a newline, clear the cache and the printed length. -/
def TextStreamer.end' (decode : List Int → List Nat) (s : TextStreamer) :
    List Nat × TextStreamer :=
  let text := decode s.token_cache
  (text.drop s.print_len ++ [10], TextStreamer.mk [] 0)

/-- One streamer operation: a `put` with a token, or the final `end`. -/
inductive StreamOp
  | put (token : Int)
  | flush
deriving DecidableEq

/-- Apply one streamer operation. -/
def streamApply (decode : List Int → List Nat) (s : TextStreamer) :
    StreamOp → List Nat × TextStreamer
  | StreamOp.put t => TextStreamer.put decode s t
  | StreamOp.flush => TextStreamer.end' decode s

/-- Run a sequence of streamer operations, concatenating the emitted chunks. -/
def streamRun (decode : List Int → List Nat) : List StreamOp → TextStreamer →
    List Nat × TextStreamer
  | [], s => ([], s)
  | op :: ops, s =>
    let r := streamApply decode s op
    let rest := streamRun decode ops r.2
    (r.1 ++ rest.1, rest.2)

/-- The initial streamer state: empty cache, printed length `0`. -/
def streamInit : TextStreamer := TextStreamer.mk [] 0

/-! ## Speculative-decoding loop (src/unnamed/part_000, `main`, lines 205-259)

The two models are abstracted as functions from the sequence of tokens fed to
their decode steps so far to the logits of the next position; `draftLogits []`
and `targetLogits []` are the last-position prefill logits. -/

/-- Loop state of `main`'s speculative generation loop. -/
structure SpecState where
  draft_fed : List Int
  target_fed : List Int
  emitted : List Int
  out_token : Int
  target_out_token : Int
  iter : Nat
deriving DecidableEq

/-- State after the two prefills (lines 207-219): `out_token` is the argmax of
the draft's last-position prefill logits, `target_out_token` the argmax of the
target's. -/
def specInit (draftLogits targetLogits : List Int → List ℚ) : SpecState :=
  SpecState.mk [] [] []
    (Int.ofNat (argmaxIdx (draftLogits [])))
    (Int.ofNat (argmaxIdx (targetLogits [])))
    0

/-- One iteration of the loop body (lines 226-258): feed `out_token` to the
draft and `target_out_token` to the target, stream `out_token`, and take the
next `out_token` as the argmax of the draft's new logits.  The target's logits
are never read in the loop (the lines recomputing `target_out_token` are
commented out in the source), so the body takes no target model at all and
`target_out_token` is carried unchanged. -/
def specStep (draftLogits : List Int → List ℚ) (s : SpecState) : SpecState :=
  let draft_fed := s.draft_fed ++ [s.out_token]
  SpecState.mk draft_fed
    (s.target_fed ++ [s.target_out_token])
    (s.emitted ++ [s.out_token])
    (Int.ofNat (argmaxIdx (draftLogits draft_fed)))
    s.target_out_token
    (s.iter + 1)

/-- The loop `while (out_token != SPECIAL_EOS_TOKEN && iter < max_iter)`,
fuelled. -/
def specRun (draftLogits : List Int → List ℚ) (eos : Int) (max_iter : Nat) :
    Nat → SpecState → SpecState
  | 0, s => s
  | fuel + 1, s =>
    if s.out_token ≠ eos ∧ s.iter < max_iter then
      specRun draftLogits eos max_iter fuel (specStep draftLogits s)
    else s

/-- The whole generation of `main`: prefill both models, then run the loop
(`max_iter` fuel suffices since `iter` increases by one per round). -/
def specGenerate (draftLogits targetLogits : List Int → List ℚ) (eos : Int)
    (max_iter : Nat) : SpecState :=
  specRun draftLogits eos max_iter max_iter (specInit draftLogits targetLogits)

/-! ## `api_interface::api_Generate`, callback overload (lines 146-187)

`generate_first_token`/`generate_next_token` run the model and sample; they are
abstracted as `first : Int` (token sampled from the prefill logits) and
`next : List Int → Int` (token sampled after the whole committed history).  The
callback receives the current `_new_token_id` and the current value of the
cooperative stop flag and returns the flag's new value (it may set it). -/

/-- State of the streamed generation loop: the committed history, the
`_new_token_id` member last handed to the callback, the loop's
`output_token`, the `_stop_generation` flag, the exact sequence of token ids
passed to the callback, the tokens actually produced by sampling, and whether
the loop exited through the stop-flag branch. -/
structure StreamGenState where
  input_len : Nat
  history_ids : List Int
  new_token_id : Int
  output_token : Int
  stop : Bool
  callback_trace : List Int
  produced : List Int
  stop_break : Bool
deriving DecidableEq

/-- State after the prefill part (lines 151-158): the first token is produced,
handed to the callback once, and pushed onto the history. -/
def streamGenInit (cb : Int → Bool → Bool) (input_ids : List Int) (first : Int) :
    StreamGenState :=
  StreamGenState.mk input_ids.length (input_ids ++ [first]) first first
    (cb first false) [first] [first] false

/-- The `while` loop of the callback overload (lines 163-179): while the token
is neither `eos_token_id` nor `im_end_id` and fewer than `n_predict` tokens
were produced, either observe the stop flag — invoking the callback once more
with the unchanged `_new_token_id` and leaving — or produce the next token,
hand it to the callback, and push it onto the history. -/
def streamGenLoop (next : List Int → Int) (cb : Int → Bool → Bool)
    (eos im_end : Int) (n_predict : Nat) : Nat → StreamGenState → StreamGenState
  | 0, s => s
  | fuel + 1, s =>
    if s.output_token ≠ eos ∧ s.output_token ≠ im_end ∧
        s.history_ids.length - s.input_len < n_predict then
      if s.stop then
        StreamGenState.mk s.input_len s.history_ids s.new_token_id s.output_token
          (cb s.new_token_id s.stop) (s.callback_trace ++ [s.new_token_id])
          s.produced true
      else
        let t := next s.history_ids
        streamGenLoop next cb eos im_end n_predict fuel
          (StreamGenState.mk s.input_len (s.history_ids ++ [t]) t t
            (cb t s.stop) (s.callback_trace ++ [t]) (s.produced ++ [t]) false)
    else s

/-- The whole streamed `api_Generate`: prefill, then the loop (`n_predict` fuel
suffices since each full round grows the history by one). -/
def streamGenerate (next : List Int → Int) (cb : Int → Bool → Bool)
    (eos im_end : Int) (n_predict : Nat) (input_ids : List Int) (first : Int) :
    StreamGenState :=
  streamGenLoop next cb eos im_end n_predict n_predict
    (streamGenInit cb input_ids first)

/-! ## `api_interface::api_Generate`, non-stream overload (lines 189-223) -/

/-- State of the non-stream generation loop. -/
structure GenState where
  output_ids : List Int
  history_ids : List Int
  output_token : Int
  stop : Bool
deriving DecidableEq

/-- State after the prefill part (lines 194-201). -/
def genInit (input_ids : List Int) (first : Int) : GenState :=
  GenState.mk [first] (input_ids ++ [first]) first false

/-- The `while` loop of the non-stream overload (lines 206-213): while the
token is neither `eos_token_id` nor `im_end_id`, fewer than `n_predict` output
tokens exist and the stop flag is clear, produce the next token and push it
onto both lists. -/
def genLoop (next : List Int → Int) (eos im_end : Int) (n_predict : Nat) :
    Nat → GenState → GenState
  | 0, s => s
  | fuel + 1, s =>
    if s.output_token ≠ eos ∧ s.output_token ≠ im_end ∧
        s.output_ids.length < n_predict ∧ s.stop = false then
      let t := next s.history_ids
      genLoop next eos im_end n_predict fuel
        (GenState.mk (s.output_ids ++ [t]) (s.history_ids ++ [t]) t s.stop)
    else s

/-- The whole non-stream `api_Generate` token loop. -/
def genRun (next : List Int → Int) (eos im_end : Int) (n_predict : Nat)
    (input_ids : List Int) (first : Int) : GenState :=
  genLoop next eos im_end n_predict n_predict (genInit input_ids first)

/-! ## `api_interface` controller state, `api_Reset` (lines 277-291) -/

/-- `PerformanceStatistic` (src/unnamed/part_001, lines 45-62), durations as
rationals. -/
structure PerformanceStatistic where
  llm_load_duration : ℚ
  llm_unload_duration : ℚ
  llm_cancel_duration : ℚ
  tokenizer_load_duration : ℚ
  llm_first_infer_duration : ℚ
  llm_prompt_evaluation_speed : ℚ
  llm_generate_next_token_duration : ℚ
  llm_average_token_per_second : ℚ
  input_token_num : Int
  generated_token_num : Int
deriving DecidableEq

/-- The all-zero record produced by `memset(&_perf_statistic, 0, ...)`. -/
def zeroPerf : PerformanceStatistic :=
  PerformanceStatistic.mk 0 0 0 0 0 0 0 0 0 0

/-- The `status` enum (src/unnamed/part_001, lines 64-71). -/
inductive ApiStatus
  | statusInit
  | loaded
  | unloaded
  | inference
  | statusError
deriving DecidableEq

/-- The mutable members of `api_interface` that `api_Reset` and the generate
loops touch: the performance record, the infer request's internal (KV cache)
state abstracted as a token list, whether `_infer_request` holds a model
(non-null), the status, `_new_token_id` and `_stop_generation`. -/
structure ApiState where
  perf : PerformanceStatistic
  kv_cache : List Int
  model_loaded : Bool
  api_status : ApiStatus
  new_token_id : Int
  stop_generation : Bool
deriving DecidableEq

/-- `api_interface::api_Reset` (lines 277-291): reset every infer-request
state (KV cache), zero the performance record, reset `_new_token_id` to the
configured `im_end_id`, clear the stop flag and return to `loaded`.
`_infer_request` itself is not touched. -/
def api_Reset (im_end_id : Int) (s : ApiState) : ApiState :=
  ApiState.mk zeroPerf [] s.model_loaded ApiStatus.loaded im_end_id false

/-- The performance-record update on normal completion of `api_Generate`
(lines 181-184 resp. 215-220): write the generated-token count and the derived
average speed, and return to `loaded`; no other field is written. -/
def api_Generate_complete (g : Int) (s : ApiState) : ApiState :=
  ApiState.mk
    (PerformanceStatistic.mk s.perf.llm_load_duration s.perf.llm_unload_duration
      s.perf.llm_cancel_duration s.perf.tokenizer_load_duration
      s.perf.llm_first_infer_duration s.perf.llm_prompt_evaluation_speed
      s.perf.llm_generate_next_token_duration
      ((g : ℚ) / s.perf.llm_generate_next_token_duration * 1000)
      s.perf.input_token_num g)
    s.kv_cache s.model_loaded ApiStatus.loaded s.new_token_id s.stop_generation

/-! ## `convert_to_vector` / `append_element` (src/unnamed/part_000, lines 88-100)

A rank-`{1, n}` i64 tensor is modelled by its trailing shape entry `shape_back`
and its data function. -/

/-- The `for (int i = 0; i << tensor.get_shape().back(); i++)` loop of
`convert_to_vector`, with its condition the left-shift `i <<< shape_back`
exactly as written in the source, fuelled. -/
def convert_to_vector_loop (shape_back : Nat) (data : Nat → Int) :
    Nat → Nat → List Int
  | 0, _ => []
  | fuel + 1, i =>
    if i <<< shape_back ≠ 0 then
      data i :: convert_to_vector_loop shape_back data fuel (i + 1)
    else []

/-- `convert_to_vector` (lines 88-94). -/
def convert_to_vector (shape_back : Nat) (data : Nat → Int) : List Int :=
  convert_to_vector_loop shape_back data shape_back 0

/-- `append_element` (lines 96-100): convert the tensor to a vector, append
`element`, and build a tensor whose data is that vector but whose reported
trailing shape entry is the input tensor's. -/
def append_element (shape_back : Nat) (data : Nat → Int) (element : Int) :
    List Int × Nat :=
  (convert_to_vector shape_back data ++ [element], shape_back)

/-! ## Lemmas about `argmaxIdx` -/

theorem argmaxIdx_lt_length : ∀ l : List ℚ, l ≠ [] → argmaxIdx l < l.length := by
  intro l
  induction l with
  | nil => simp
  | cons x xs ih =>
    cases xs with
    | nil => intro _; simp [argmaxIdx]
    | cons y ys =>
      intro _
      simp only [argmaxIdx]
      split
      · have h := ih (by simp)
        simpa using Nat.succ_lt_succ h
      · simp

theorem argmaxIdx_is_max : ∀ (l : List ℚ) (j : Nat), j < l.length →
    l.getD j 0 ≤ l.getD (argmaxIdx l) 0 := by
  intro l
  induction l with
  | nil => simp
  | cons x xs ih =>
    cases xs with
    | nil =>
      intro j hj
      cases j with
      | zero => simp [argmaxIdx]
      | succ j => exact absurd hj (by simp)
    | cons y ys =>
      intro j hj
      simp only [argmaxIdx]
      split
      · cases j with
        | zero =>
          simp only [List.getD_cons_zero, List.getD_cons_succ]
          exact le_of_lt (by assumption)
        | succ j =>
          simp only [List.getD_cons_succ]
          exact ih j (by simpa using hj)
      · cases j with
        | zero => simp
        | succ j =>
          simp only [List.getD_cons_succ, List.getD_cons_zero]
          have h1 : (y :: ys).getD j 0 ≤ (y :: ys).getD (argmaxIdx (y :: ys)) 0 :=
            ih j (by simpa using hj)
          have h2 : (y :: ys).getD (argmaxIdx (y :: ys)) 0 ≤ x := le_of_not_lt (by assumption)
          exact le_trans h1 h2

theorem argmaxIdx_first_max : ∀ (l : List ℚ) (j : Nat), j < argmaxIdx l →
    l.getD j 0 < l.getD (argmaxIdx l) 0 := by
  intro l
  induction l with
  | nil => simp [argmaxIdx]
  | cons x xs ih =>
    cases xs with
    | nil => simp [argmaxIdx]
    | cons y ys =>
      intro j hj
      simp only [argmaxIdx] at hj ⊢
      by_cases hc : x < (y :: ys).getD (argmaxIdx (y :: ys)) 0
      · simp only [if_pos hc] at hj ⊢
        cases j with
        | zero =>
          simpa only [List.getD_cons_zero, List.getD_cons_succ] using hc
        | succ j =>
          simp only [List.getD_cons_succ]
          exact ih j (by omega)
      · simp only [if_neg hc] at hj
        exact absurd hj (Nat.not_lt_zero j)

/-! ## Length lemmas for the sampling pipeline -/

theorem foldl_set_length (p : ℚ) :
    ∀ (ids : List Int) (lg : List ℚ),
    (ids.foldl (fun lg id =>
      lg.set id.toNat
        (if 0 < lg.getD id.toNat 0 then lg.getD id.toNat 0 / p
         else lg.getD id.toNat 0 * p)) lg).length = lg.length := by
  intro ids
  induction ids with
  | nil => intro lg; rfl
  | cons a as ih =>
    intro lg
    simp only [List.foldl_cons]
    rw [ih]
    exact List.length_set ..

theorem sampling_repetition_penalty_length (logits : List ℚ) (history_ids : List Int)
    (n : Nat) (p : ℚ) :
    (sampling_repetition_penalty logits history_ids n p).length = logits.length := by
  unfold sampling_repetition_penalty
  exact foldl_set_length p _ logits

theorem preprocess_logits_length (history_ids : List Int) (logits : List ℚ)
    (p : Params) : (preprocess_logits history_ids logits p).length = logits.length := by
  unfold preprocess_logits
  split
  · split
    · exact sampling_repetition_penalty_length ..
    · rfl
  · rfl

theorem preprocess_logits_congr (history_ids : List Int) (logits : List ℚ)
    (p q : Params) (hpen : p.repeat_penalty = q.repeat_penalty)
    (hlast : p.repeat_last_n = q.repeat_last_n) :
    preprocess_logits history_ids logits p = preprocess_logits history_ids logits q := by
  unfold preprocess_logits
  rw [hpen, hlast]

/-! ## Lemmas about the `do_sample` candidate pipeline -/

theorem topPCount_pos : ∀ (ms : List ℚ) (θ : ℚ), ms ≠ [] → 1 ≤ topPCount ms θ := by
  intro ms θ h
  cases ms with
  | nil => exact absurd rfl h
  | cons m ms =>
    simp only [topPCount]
    split <;> omega

theorem sampling_top_p_mem (φ : ℚ → ℚ) (scores : List TokenIdScore) (θ : ℚ)
    (x : TokenIdScore) (hx : x ∈ sampling_top_p φ scores θ) : x ∈ scores := by
  simp only [sampling_top_p] at hx
  exact List.mem_mergeSort.mp (List.mem_of_mem_take hx)

theorem sampling_top_p_ne_nil (φ : ℚ → ℚ) (scores : List TokenIdScore) (θ : ℚ)
    (h : scores ≠ []) : sampling_top_p φ scores θ ≠ [] := by
  simp only [sampling_top_p]
  apply List.ne_nil_of_length_pos
  rw [List.length_take]
  have hlen : 0 < scores.length := List.length_pos.mpr h
  refine Nat.lt_min.mpr ⟨?_, ?_⟩
  · apply topPCount_pos
    intro hc
    exact h (by simpa using congrArg List.length hc)
  · rw [List.length_mergeSort]
    exact hlen

theorem sampling_top_k_mem (scores : List TokenIdScore) (k : Nat)
    (x : TokenIdScore) (hx : x ∈ sampling_top_k scores k) : x ∈ scores := by
  simp only [sampling_top_k] at hx
  exact List.mem_mergeSort.mp (List.mem_of_mem_take hx)

theorem sampling_top_k_ne_nil (scores : List TokenIdScore) (k : Nat)
    (hk : 0 < k) (h : scores ≠ []) : sampling_top_k scores k ≠ [] := by
  simp only [sampling_top_k]
  apply List.ne_nil_of_length_pos
  rw [List.length_take, List.length_mergeSort]
  exact Nat.lt_min.mpr ⟨hk, List.length_pos.mpr h⟩

theorem token_scores_of_length (l : List ℚ) :
    (token_scores_of l).length = l.length := by
  simp [token_scores_of]

theorem token_scores_of_mem (l : List ℚ) (x : TokenIdScore)
    (hx : x ∈ token_scores_of l) : 0 ≤ x.id ∧ x.id < (l.length : Int) := by
  simp only [token_scores_of, List.mem_map, List.mem_range] at hx
  obtain ⟨i, hi, rfl⟩ := hx
  exact ⟨Int.ofNat_nonneg i, Int.ofNat_lt.mpr hi⟩

theorem scaled_logits_length (history_ids : List Int) (logits : List ℚ)
    (p : Params) : (scaled_logits history_ids logits p).length = logits.length := by
  unfold scaled_logits
  split
  · rw [sampling_temperature, List.length_map]
    exact preprocess_logits_length ..
  · exact preprocess_logits_length ..

theorem after_top_k_ne_nil (history_ids : List Int) (logits : List ℚ)
    (p : Params) (hl : logits ≠ []) : after_top_k history_ids logits p ≠ [] := by
  have hpos : 0 < (token_scores_of (scaled_logits history_ids logits p)).length := by
    rw [token_scores_of_length, scaled_logits_length]
    exact List.length_pos.mpr hl
  unfold after_top_k
  split
  · apply sampling_top_k_ne_nil
    · have hk : 0 < p.top_k := by
        have h := by assumption
        exact h.1
      omega
    · exact List.ne_nil_of_length_pos hpos
  · exact List.ne_nil_of_length_pos hpos

theorem after_top_k_mem (history_ids : List Int) (logits : List ℚ) (p : Params)
    (x : TokenIdScore) (hx : x ∈ after_top_k history_ids logits p) :
    0 ≤ x.id ∧ x.id < (logits.length : Int) := by
  have key : ∀ y : TokenIdScore, y ∈ token_scores_of (scaled_logits history_ids logits p) →
      0 ≤ y.id ∧ y.id < (logits.length : Int) := by
    intro y hy
    have h := token_scores_of_mem _ y hy
    rwa [scaled_logits_length] at h
  unfold after_top_k at hx
  split at hx
  · exact key x (sampling_top_k_mem _ _ x hx)
  · exact key x hx

theorem candidate_scores_ne_nil (φ : ℚ → ℚ) (history_ids : List Int)
    (logits : List ℚ) (p : Params) (hl : logits ≠ []) :
    candidate_scores φ history_ids logits p ≠ [] := by
  unfold candidate_scores
  split
  · exact sampling_top_p_ne_nil _ _ _ (after_top_k_ne_nil history_ids logits p hl)
  · exact after_top_k_ne_nil history_ids logits p hl

theorem candidate_scores_mem (φ : ℚ → ℚ) (history_ids : List Int)
    (logits : List ℚ) (p : Params) (x : TokenIdScore)
    (hx : x ∈ candidate_scores φ history_ids logits p) :
    0 ≤ x.id ∧ x.id < (logits.length : Int) := by
  unfold candidate_scores at hx
  split at hx
  · exact after_top_k_mem history_ids logits p x (sampling_top_p_mem _ _ _ x hx)
  · exact after_top_k_mem history_ids logits p x hx

theorem sampling_softmax_inplace_length (φ : ℚ → ℚ) (scores : List TokenIdScore) :
    (sampling_softmax_inplace φ scores).length = scores.length := by
  simp [sampling_softmax_inplace]

theorem sampling_softmax_inplace_mem (φ : ℚ → ℚ) (scores : List TokenIdScore)
    (x : TokenIdScore) (hx : x ∈ sampling_softmax_inplace φ scores) :
    ∃ t ∈ scores, x.id = t.id := by
  simp only [sampling_softmax_inplace, List.mem_map] at hx
  obtain ⟨t, ht, rfl⟩ := hx
  exact ⟨t, ht, rfl⟩

/-! ## Claim C1 -/

/-- C1, counterexample: with `do_sample=false`, `repeat_penalty=2` and
`repeat_last_n=1`, on logits `[1, 3/4]` with history `[0]` the sampler returns
index `1`, while the index of the maximum of the input logits is `0` — the
repetition penalty (applied before the `do_sample` branch) does change the
greedy result, so the claim that the result is unaffected by `repeat_penalty`
fails. -/
theorem C1_counterexample :
    get_out_token_id (fun _ => 1) 0 [0] [1, 3/4]
      (Params.mk 2048 512 false 40 (9/10) (1/5) 2 1 (-1)) = 1 ∧
    argmaxIdx [1, 3/4] = 0 := by
  constructor
  · norm_num [get_out_token_id, preprocess_logits, sampling_repetition_penalty, argmaxIdx]
  · norm_num [argmaxIdx]

/-- C1, amended: for every non-empty logits vector and configuration with
`do_sample=false`, `get_out_token_id` returns the index of the maximum of the
logits after the repetition penalty has been applied (ties broken by lowest
index); the result is unaffected by `temperature`, `top_k`, `top_p` and
`seed` (and by the RNG draw and the softmax `exp`), but it does depend on the
penalized logits, hence on `repeat_penalty` and `repeat_last_n`. -/
theorem C1_theorem (φ φ2 : ℚ → ℚ) (c c2 : Nat) (history_ids : List Int)
    (logits : List ℚ) (p q : Params) (hl : logits ≠ [])
    (hp : p.do_sample = false) (hq : q.do_sample = false)
    (hpen : p.repeat_penalty = q.repeat_penalty)
    (hlast : p.repeat_last_n = q.repeat_last_n) :
    get_out_token_id φ c history_ids logits p =
      get_out_token_id φ2 c2 history_ids logits q ∧
    get_out_token_id φ c history_ids logits p =
      Int.ofNat (argmaxIdx (preprocess_logits history_ids logits p)) ∧
    argmaxIdx (preprocess_logits history_ids logits p) < logits.length ∧
    (∀ j < logits.length,
      (preprocess_logits history_ids logits p).getD j 0 ≤
        (preprocess_logits history_ids logits p).getD
          (argmaxIdx (preprocess_logits history_ids logits p)) 0) ∧
    (∀ j < argmaxIdx (preprocess_logits history_ids logits p),
      (preprocess_logits history_ids logits p).getD j 0 <
        (preprocess_logits history_ids logits p).getD
          (argmaxIdx (preprocess_logits history_ids logits p)) 0) := by
  have hlen := preprocess_logits_length history_ids logits p
  have hnil : preprocess_logits history_ids logits p ≠ [] := by
    intro hc
    rw [hc] at hlen
    exact hl (List.length_eq_zero.mp hlen.symm)
  refine ⟨?_, ?_, ?_, ?_, ?_⟩
  · simp only [get_out_token_id, hp, hq, Bool.false_eq_true, if_false]
    rw [preprocess_logits_congr history_ids logits p q hpen hlast]
  · simp only [get_out_token_id, hp, Bool.false_eq_true, if_false]
  · rw [← hlen]
    exact argmaxIdx_lt_length _ hnil
  · intro j hj
    exact argmaxIdx_is_max _ j (by rwa [hlen])
  · intro j hj
    exact argmaxIdx_first_max _ j hj

/-- C1, witness for the amended theorem at a concrete input. -/
theorem C1_witness :
    get_out_token_id (fun _ => 1) 0 [0] [4, 7]
      (Params.mk 2048 512 false 40 (9/10) (1/5) (11/10) 32 (-1)) =
      get_out_token_id (fun _ => 2) 3 [0] [4, 7]
        (Params.mk 99 99 false 1 (1/2) 9 (11/10) 32 5) ∧
    get_out_token_id (fun _ => 1) 0 [0] [4, 7]
      (Params.mk 2048 512 false 40 (9/10) (1/5) (11/10) 32 (-1)) =
      Int.ofNat (argmaxIdx (preprocess_logits [0] [4, 7]
        (Params.mk 2048 512 false 40 (9/10) (1/5) (11/10) 32 (-1)))) := by
  have h := C1_theorem (fun _ => 1) (fun _ => 2) 0 3 [0] [4, 7]
    (Params.mk 2048 512 false 40 (9/10) (1/5) (11/10) 32 (-1))
    (Params.mk 99 99 false 1 (1/2) 9 (11/10) 32 5)
    (by simp) rfl rfl rfl rfl
  exact ⟨h.1, h.2.1⟩

/-! ## Claim C4 -/

/-- C4: for every non-empty logits vector and every configuration with
`do_sample=true`, the candidate list remaining after top-k then top-p
filtering is non-empty, and the sampled token id lies in `[0, vocab_size)` —
for every abstract `exp` and every RNG draw. -/
theorem C4_theorem (φ : ℚ → ℚ) (choice : Nat) (history_ids : List Int)
    (logits : List ℚ) (p : Params) (hl : logits ≠ [])
    (hs : p.do_sample = true) :
    candidate_scores φ history_ids logits p ≠ [] ∧
    0 ≤ get_out_token_id φ choice history_ids logits p ∧
    get_out_token_id φ choice history_ids logits p < (logits.length : Int) := by
  have hc := candidate_scores_ne_nil φ history_ids logits p hl
  refine ⟨hc, ?_⟩
  simp only [get_out_token_id, hs, if_true]
  have hlen : (sampling_softmax_inplace φ (candidate_scores φ history_ids logits p)).length =
      (candidate_scores φ history_ids logits p).length :=
    sampling_softmax_inplace_length ..
  have hpos : 0 < (sampling_softmax_inplace φ (candidate_scores φ history_ids logits p)).length := by
    rw [hlen]
    exact List.length_pos.mpr hc
  have hidx := Nat.mod_lt choice hpos
  rw [List.getD_eq_getElem _ _ hidx]
  have hmem := List.getElem_mem hidx
  obtain ⟨t, ht, hid⟩ := sampling_softmax_inplace_mem φ _ _ hmem
  rw [hid]
  exact candidate_scores_mem φ history_ids logits p t ht

/-- C4, witness at a concrete input. -/
theorem C4_witness :
    candidate_scores (fun _ => 1) [] [1, 2, 3]
      (Params.mk 2048 512 true 2 (1/2) (1/5) 1 32 (-1)) ≠ [] ∧
    0 ≤ get_out_token_id (fun _ => 1) 5 [] [1, 2, 3]
      (Params.mk 2048 512 true 2 (1/2) (1/5) 1 32 (-1)) ∧
    get_out_token_id (fun _ => 1) 5 [] [1, 2, 3]
      (Params.mk 2048 512 true 2 (1/2) (1/5) 1 32 (-1)) < (3 : Int) := by
  have h := C4_theorem (fun _ => 1) 5 [] [1, 2, 3]
    (Params.mk 2048 512 true 2 (1/2) (1/5) 1 32 (-1)) (by simp) rfl
  simpa using h

/-! ## Claim C8 -/

/-- C8: `api_Reset` zeroes every field of the performance-statistics record,
clears the inference (KV cache) state, keeps the loaded model (the
infer-request handle is untouched) and sets the status to `loaded` (not
`unloaded`); the completion of a generate call only writes the
generated-token count and the derived average speed and does not zero the
other performance counters. -/
theorem C8_theorem (im_end_id : Int) (s : ApiState) (g : Int) :
    (api_Reset im_end_id s).perf = zeroPerf ∧
    (api_Reset im_end_id s).kv_cache = [] ∧
    (api_Reset im_end_id s).model_loaded = s.model_loaded ∧
    (api_Reset im_end_id s).api_status = ApiStatus.loaded ∧
    (api_Reset im_end_id s).api_status ≠ ApiStatus.unloaded ∧
    (api_Generate_complete g s).perf.llm_load_duration = s.perf.llm_load_duration ∧
    (api_Generate_complete g s).perf.llm_unload_duration = s.perf.llm_unload_duration ∧
    (api_Generate_complete g s).perf.llm_cancel_duration = s.perf.llm_cancel_duration ∧
    (api_Generate_complete g s).perf.tokenizer_load_duration = s.perf.tokenizer_load_duration ∧
    (api_Generate_complete g s).perf.llm_first_infer_duration = s.perf.llm_first_infer_duration ∧
    (api_Generate_complete g s).perf.llm_prompt_evaluation_speed = s.perf.llm_prompt_evaluation_speed ∧
    (api_Generate_complete g s).perf.llm_generate_next_token_duration = s.perf.llm_generate_next_token_duration ∧
    (api_Generate_complete g s).perf.input_token_num = s.perf.input_token_num ∧
    (api_Generate_complete g s).perf.generated_token_num = g ∧
    (api_Generate_complete g s).kv_cache = s.kv_cache ∧
    (api_Generate_complete g s).model_loaded = s.model_loaded := by
  refine ⟨rfl, rfl, rfl, rfl, ?_, rfl, rfl, rfl, rfl, rfl, rfl, rfl, rfl, rfl, rfl, rfl⟩
  simp [api_Reset]

/-! ## Claim C10 -/

/-- The loop of `convert_to_vector` immediately exits for every fuel: its
condition is the left-shift `0 << shape_back`, which is `0` (false) at
`i = 0`. -/
theorem convert_to_vector_loop_nil (shape_back : Nat) (data : Nat → Int) :
    ∀ fuel : Nat, convert_to_vector_loop shape_back data fuel 0 = [] := by
  intro fuel
  cases fuel with
  | zero => rfl
  | succ n => simp [convert_to_vector_loop, Nat.zero_shiftLeft]

/-- C10: `convert_to_vector` returns the empty sequence for every input
tensor (its loop condition is the left-shift `i << shape.back()`, which is `0`
at `i = 0`), so `append_element` always builds its result from the one-element
vector `[element]` while reporting the original tensor's trailing shape
entry. -/
theorem C10_theorem (shape_back : Nat) (data : Nat → Int) (element : Int) :
    convert_to_vector shape_back data = [] ∧
    (append_element shape_back data element).1 = [element] ∧
    (append_element shape_back data element).2 = shape_back := by
  refine ⟨convert_to_vector_loop_nil shape_back data shape_back, ?_, rfl⟩
  simp [append_element, convert_to_vector,
    convert_to_vector_loop_nil shape_back data shape_back]

/-! ## Streamer lemmas -/

/-- The byte-compare test of `TextStreamer::put` (`text.size() >= 3` and the
last three bytes equal the marker) says exactly that the text ends in the
three-byte marker. -/
theorem endsWith_marker_iff (T : List Nat) :
    (3 ≤ T.length ∧ T.drop (T.length - 3) = replacementMarker) ↔
      replacementMarker <:+ T := by
  constructor
  · rintro ⟨hlen, hdrop⟩
    exact ⟨T.take (T.length - 3), by rw [← hdrop]; exact List.take_append_drop ..⟩
  · rintro ⟨pre, rfl⟩
    have hlen : (pre ++ replacementMarker).length = pre.length + 3 := by
      simp [replacementMarker]
    constructor
    · omega
    · rw [hlen]
      have : pre.length + 3 - 3 = pre.length := by omega
      rw [this, List.drop_left]

/-- A list with `getLast? = some b` is non-empty. -/
theorem ne_nil_of_getLast?_eq_some (T : List Nat) (b : Nat)
    (h : T.getLast? = some b) : T ≠ [] := by
  intro hc
  rw [hc] at h
  exact Option.noConfusion h

/-! ## Claim C5 -/

/-- C5: for every call `put(token_id)`, with `T` the decoding of the cache
extended by the token: if `T` ends in a newline, the suffix `T[printed_length:]`
is emitted and the cache and printed length are cleared; otherwise, if `T` ends
in the replacement-character marker, nothing is emitted and the state keeps the
extended cache and the unchanged printed length; otherwise `T[printed_length:]`
is emitted and the printed length becomes `len(T)` (with the extended cache
kept). -/
theorem C5_theorem (decode : List Int → List Nat) (s : TextStreamer) (token : Int) :
    ((decode (s.token_cache ++ [token])).getLast? = some 10 →
      TextStreamer.put decode s token =
        ((decode (s.token_cache ++ [token])).drop s.print_len, TextStreamer.mk [] 0)) ∧
    ((decode (s.token_cache ++ [token])).getLast? ≠ some 10 →
      replacementMarker <:+ decode (s.token_cache ++ [token]) →
      TextStreamer.put decode s token =
        ([], TextStreamer.mk (s.token_cache ++ [token]) s.print_len)) ∧
    ((decode (s.token_cache ++ [token])).getLast? ≠ some 10 →
      ¬ replacementMarker <:+ decode (s.token_cache ++ [token]) →
      TextStreamer.put decode s token =
        ((decode (s.token_cache ++ [token])).drop s.print_len,
          TextStreamer.mk (s.token_cache ++ [token])
            (decode (s.token_cache ++ [token])).length)) := by
  refine ⟨?_, ?_, ?_⟩
  · intro hnl
    have hne := ne_nil_of_getLast?_eq_some _ _ hnl
    simp only [TextStreamer.put, if_pos (And.intro hne hnl)]
  · intro hnl hmark
    have hcode := (endsWith_marker_iff _).mpr hmark
    simp only [TextStreamer.put]
    rw [if_neg (by intro hc; exact hnl hc.2), if_pos hcode]
  · intro hnl hmark
    have hcode : ¬ (3 ≤ (decode (s.token_cache ++ [token])).length ∧
        (decode (s.token_cache ++ [token])).drop
          ((decode (s.token_cache ++ [token])).length - 3) = replacementMarker) := by
      intro hc
      exact hmark ((endsWith_marker_iff _).mp hc)
    simp only [TextStreamer.put]
    rw [if_neg (by intro hc; exact hnl hc.2), if_neg hcode]

/-- C5, witness: a concrete `put` in the plain-emission case. -/
theorem C5_witness :
    TextStreamer.put (fun xs => List.replicate xs.length 65)
      (TextStreamer.mk [] 0) 5 = ([65], TextStreamer.mk [5] 1) := by
  have h := (C5_theorem (fun xs => List.replicate xs.length 65)
    (TextStreamer.mk [] 0) 5).2.2 (by decide) (by decide)
  simpa using h

/-! ## Claim C9 -/

/-- One `put` preserves `print_len ≤ |decode token_cache|`, provided appending
a token never shrinks the decoded text. -/
theorem put_preserves_inv (decode : List Int → List Nat)
    (hmono : ∀ xs t, (decode xs).length ≤ (decode (xs ++ [t])).length)
    (s : TextStreamer) (token : Int)
    (hinv : s.print_len ≤ (decode s.token_cache).length) :
    (TextStreamer.put decode s token).2.print_len ≤
      (decode (TextStreamer.put decode s token).2.token_cache).length := by
  simp only [TextStreamer.put]
  split
  · simp
  · split
    · simpa using le_trans hinv (hmono s.token_cache token)
    · simp

/-- Every streamer operation preserves `print_len ≤ |decode token_cache|`. -/
theorem streamApply_preserves_inv (decode : List Int → List Nat)
    (hmono : ∀ xs t, (decode xs).length ≤ (decode (xs ++ [t])).length)
    (s : TextStreamer) (op : StreamOp)
    (hinv : s.print_len ≤ (decode s.token_cache).length) :
    (streamApply decode s op).2.print_len ≤
      (decode (streamApply decode s op).2.token_cache).length := by
  cases op with
  | put t => exact put_preserves_inv decode hmono s t hinv
  | flush => simp [streamApply, TextStreamer.end']

/-- Any sequence of streamer operations preserves the invariant. -/
theorem streamRun_preserves_inv (decode : List Int → List Nat)
    (hmono : ∀ xs t, (decode xs).length ≤ (decode (xs ++ [t])).length) :
    ∀ (ops : List StreamOp) (s : TextStreamer),
    s.print_len ≤ (decode s.token_cache).length →
    (streamRun decode ops s).2.print_len ≤
      (decode (streamRun decode ops s).2.token_cache).length := by
  intro ops
  induction ops with
  | nil => intro s hinv; exact hinv
  | cons op ops ih =>
    intro s hinv
    simp only [streamRun]
    exact ih _ (streamApply_preserves_inv decode hmono s op hinv)

/-- C9: starting from the initial state, after every sequence of `put`/`end`
calls the invariant `printed_length ≤ length(decode(token_cache))` holds
(assuming the external detokenizer never shrinks the decoded text when a token
is appended), and both the newline flush of `put` and the end-of-stream flush
clear `token_cache` and `printed_length`. -/
theorem C9_theorem (decode : List Int → List Nat)
    (hmono : ∀ xs t, (decode xs).length ≤ (decode (xs ++ [t])).length) :
    (∀ ops : List StreamOp,
      (streamRun decode ops streamInit).2.print_len ≤
        (decode (streamRun decode ops streamInit).2.token_cache).length) ∧
    (∀ (s : TextStreamer) (token : Int),
      (decode (s.token_cache ++ [token])).getLast? = some 10 →
      (TextStreamer.put decode s token).2 = TextStreamer.mk [] 0) ∧
    (∀ s : TextStreamer, (TextStreamer.end' decode s).2 = TextStreamer.mk [] 0) := by
  refine ⟨?_, ?_, ?_⟩
  · intro ops
    exact streamRun_preserves_inv decode hmono ops streamInit (by simp [streamInit])
  · intro s token hnl
    have hne := ne_nil_of_getLast?_eq_some _ _ hnl
    simp only [TextStreamer.put, if_pos (And.intro hne hnl)]
  · intro s
    rfl

/-- C9, witness: a concrete run under a concrete length-monotone decoder. -/
theorem C9_witness :
    (streamRun (fun xs => List.replicate xs.length 65)
        [StreamOp.put 4, StreamOp.flush] streamInit).2.print_len ≤
      (List.replicate (streamRun (fun xs => List.replicate xs.length 65)
        [StreamOp.put 4, StreamOp.flush] streamInit).2.token_cache.length 65).length :=
  (C9_theorem (fun xs => List.replicate xs.length 65)
    (fun xs t => by simp)).1 [StreamOp.put 4, StreamOp.flush]

/-! ## Claim C6 -/

/-- A concatenative decoder decodes the empty token list to the empty text. -/
theorem decode_nil_of_hom (decode : List Int → List Nat)
    (hhom : ∀ xs ys, decode (xs ++ ys) = decode xs ++ decode ys) :
    decode [] = [] := by
  have h := hhom [] []
  rw [List.append_nil] at h
  have hlen := congrArg List.length h
  rw [List.length_append] at hlen
  have : (decode ([] : List Int)).length = 0 := by omega
  exact List.length_eq_zero.mp this

/-- The emitted output of feeding tokens `ts` one at a time and then flushing,
from any state satisfying the streamer invariant, for a concatenative
decoder: the not-yet-printed suffix, then the decoding of `ts`, then the final
newline. -/
theorem streamRun_hom_aux (decode : List Int → List Nat)
    (hhom : ∀ xs ys, decode (xs ++ ys) = decode xs ++ decode ys) :
    ∀ (ts : List Int) (s : TextStreamer),
    s.print_len ≤ (decode s.token_cache).length →
    (streamRun decode (ts.map StreamOp.put ++ [StreamOp.flush]) s).1 =
      (decode s.token_cache).drop s.print_len ++ decode ts ++ [10] := by
  intro ts
  induction ts with
  | nil =>
    intro s hinv
    simp [streamRun, streamApply, TextStreamer.end', decode_nil_of_hom decode hhom]
  | cons t ts ih =>
    intro s hinv
    have hT : decode (s.token_cache ++ [t]) = decode s.token_cache ++ decode [t] :=
      hhom s.token_cache [t]
    have hdrop : (decode (s.token_cache ++ [t])).drop s.print_len =
        (decode s.token_cache).drop s.print_len ++ decode [t] := by
      rw [hT, List.drop_append_of_le_length hinv]
    have hsplit : decode (t :: ts) = decode [t] ++ decode ts := hhom [t] ts
    simp only [List.map_cons, List.cons_append, streamRun, streamApply,
      TextStreamer.put]
    split
    · have hrest := ih (TextStreamer.mk [] 0) (by simp)
      dsimp only
      simp only [List.append_eq]
      rw [hrest]
      simp only [decode_nil_of_hom decode hhom, List.drop_nil, List.nil_append]
      rw [hdrop, hsplit]
      simp [List.append_assoc]
    · split
      · have hinvm : s.print_len ≤ (decode (s.token_cache ++ [t])).length := by
          rw [hT, List.length_append]
          omega
        have hrest := ih (TextStreamer.mk (s.token_cache ++ [t]) s.print_len) hinvm
        dsimp only
        simp only [List.append_eq]
        rw [hrest, hdrop, hsplit]
        simp [List.append_assoc]
      · have hrest := ih
          (TextStreamer.mk (s.token_cache ++ [t]) (decode (s.token_cache ++ [t])).length)
          (by simp)
        dsimp only
        simp only [List.append_eq]
        rw [hrest]
        simp only [List.drop_length, List.nil_append]
        rw [hdrop, hsplit]
        simp [List.append_assoc]

/-- C6: for every token sequence `T` and every concatenative decoder (one with
no glyph-split or boundary artifacts — the claim's documented exception), the
concatenation of all chunks emitted by feeding `T` one token at a time via
`put` followed by `end()` equals the decoder applied to the full `T` at once,
plus the trailing newline emitted by `end`. -/
theorem C6_theorem (decode : List Int → List Nat)
    (hhom : ∀ xs ys, decode (xs ++ ys) = decode xs ++ decode ys)
    (T : List Int) :
    (streamRun decode (T.map StreamOp.put ++ [StreamOp.flush]) streamInit).1 =
      decode T ++ [10] := by
  have h := streamRun_hom_aux decode hhom T streamInit (by simp [streamInit])
  rw [h]
  simp [streamInit, decode_nil_of_hom decode hhom]

/-- C6, witness: a concrete run under a concrete concatenative decoder. -/
theorem C6_witness :
    (streamRun (fun xs => xs.map Int.toNat)
        ([1, 2].map StreamOp.put ++ [StreamOp.flush]) streamInit).1 = [1, 2, 10] := by
  have h := C6_theorem (fun xs => xs.map Int.toNat) (fun xs ys => by simp) [1, 2]
  simpa using h

/-! ## Claim C2 -/

/-- Invariant of the speculative loop: the emitted tokens are exactly the
tokens fed to the draft, the pending `out_token` is the draft argmax over the
fed history, the carried `target_out_token` never changes from `t0`, the
target has been fed `t0` once per emitted token, and every emitted token is
the draft argmax over the previously emitted ones. -/
def specInv (draftLogits : List Int → List ℚ) (t0 : Int) (s : SpecState) : Prop :=
  s.emitted = s.draft_fed ∧
  s.out_token = Int.ofNat (argmaxIdx (draftLogits s.draft_fed)) ∧
  s.target_out_token = t0 ∧
  s.target_fed = List.replicate s.emitted.length t0 ∧
  (∀ k, k < s.emitted.length →
    s.emitted.getD k 0 = Int.ofNat (argmaxIdx (draftLogits (s.emitted.take k))))

theorem specStep_inv (draftLogits : List Int → List ℚ) (t0 : Int) (s : SpecState)
    (h : specInv draftLogits t0 s) : specInv draftLogits t0 (specStep draftLogits s) := by
  obtain ⟨h1, h2, h3, h4, h5⟩ := h
  refine ⟨?_, ?_, ?_, ?_, ?_⟩
  · simp [specStep, h1]
  · simp [specStep]
  · simp [specStep, h3]
  · simp only [specStep, h4, h3, h1, List.length_append, List.length_cons,
      List.length_nil]
    rw [List.replicate_add]
    simp
  · intro k hk
    simp only [specStep] at hk ⊢
    rw [List.length_append, List.length_cons, List.length_nil] at hk
    by_cases hke : k < s.emitted.length
    · rw [List.getD_append _ _ _ _ hke]
      rw [List.take_append_of_le_length (le_of_lt hke)]
      exact h5 k hke
    · have hkeq : k = s.emitted.length := by omega
      subst hkeq
      rw [List.getD_append_right _ _ _ _ (le_refl _)]
      simp only [Nat.sub_self, List.getD_cons_zero]
      rw [List.take_left]
      rw [h2, h1]

theorem specRun_inv (draftLogits : List Int → List ℚ) (t0 eos : Int)
    (max_iter : Nat) : ∀ (fuel : Nat) (s : SpecState),
    specInv draftLogits t0 s →
    specInv draftLogits t0 (specRun draftLogits eos max_iter fuel s) := by
  intro fuel
  induction fuel with
  | zero => intro s h; exact h
  | succ n ih =>
    intro s h
    simp only [specRun]
    split
    · exact ih _ (specStep_inv draftLogits t0 s h)
    · exact h

theorem specInit_inv (draftLogits targetLogits : List Int → List ℚ) :
    specInv draftLogits (Int.ofNat (argmaxIdx (targetLogits [])))
      (specInit draftLogits targetLogits) := by
  refine ⟨rfl, rfl, rfl, rfl, ?_⟩
  intro k hk
  exact absurd hk (by simp [specInit])

/-- The loop body and exit condition never read the target model, so two runs
whose states agree on the draft-side fields produce the same draft-side
fields. -/
theorem specRun_proj (draftLogits : List Int → List ℚ) (eos : Int)
    (max_iter : Nat) : ∀ (fuel : Nat) (s1 s2 : SpecState),
    s1.draft_fed = s2.draft_fed → s1.emitted = s2.emitted →
    s1.out_token = s2.out_token → s1.iter = s2.iter →
    (specRun draftLogits eos max_iter fuel s1).emitted =
      (specRun draftLogits eos max_iter fuel s2).emitted ∧
    (specRun draftLogits eos max_iter fuel s1).out_token =
      (specRun draftLogits eos max_iter fuel s2).out_token := by
  intro fuel
  induction fuel with
  | zero => intro s1 s2 _ he ho _; exact ⟨he, ho⟩
  | succ n ih =>
    intro s1 s2 hd he ho hi
    simp only [specRun]
    rw [ho, hi]
    split
    · exact ih (specStep draftLogits s1) (specStep draftLogits s2)
        (by simp [specStep, hd, ho]) (by simp [specStep, he, ho])
        (by simp [specStep, hd, ho]) (by simp [specStep, hi])
    · exact ⟨he, ho⟩

/-- C2: in the speculative generation loop, every emitted token is the greedy
argmax over the draft model's logits at the previously emitted history (the
emitted tokens are exactly the tokens fed back to the draft), the target's
decode step is fed the target's own previously chosen token — the argmax of
its prefill logits, the only token it ever chooses — at every iteration, and
the emitted stream does not depend on the target model's logits at all. -/
theorem C2_theorem (draftLogits targetLogits : List Int → List ℚ) (eos : Int)
    (max_iter : Nat) :
    (∀ k, k < (specGenerate draftLogits targetLogits eos max_iter).emitted.length →
      (specGenerate draftLogits targetLogits eos max_iter).emitted.getD k 0 =
        Int.ofNat (argmaxIdx (draftLogits
          ((specGenerate draftLogits targetLogits eos max_iter).emitted.take k)))) ∧
    (specGenerate draftLogits targetLogits eos max_iter).target_fed =
      List.replicate (specGenerate draftLogits targetLogits eos max_iter).emitted.length
        (Int.ofNat (argmaxIdx (targetLogits []))) ∧
    (specGenerate draftLogits targetLogits eos max_iter).draft_fed =
      (specGenerate draftLogits targetLogits eos max_iter).emitted ∧
    (∀ targetLogits2 : List Int → List ℚ,
      (specGenerate draftLogits targetLogits2 eos max_iter).emitted =
        (specGenerate draftLogits targetLogits eos max_iter).emitted) := by
  have h := specRun_inv draftLogits (Int.ofNat (argmaxIdx (targetLogits []))) eos
    max_iter max_iter (specInit draftLogits targetLogits)
    (specInit_inv draftLogits targetLogits)
  obtain ⟨h1, _, _, h4, h5⟩ := h
  refine ⟨h5, h4, h1.symm, ?_⟩
  intro targetLogits2
  exact (specRun_proj draftLogits eos max_iter max_iter
    (specInit draftLogits targetLogits2) (specInit draftLogits targetLogits)
    rfl rfl rfl rfl).1

/-- C2, witness at concrete draft and target models. -/
theorem C2_witness :
    (specGenerate (fun _ => [0, 1]) (fun _ => [5, 3]) 9 2).target_fed =
      List.replicate
        (specGenerate (fun _ => [0, 1]) (fun _ => [5, 3]) 9 2).emitted.length
        (Int.ofNat (argmaxIdx [5, 3])) ∧
    (specGenerate (fun _ => [0, 1]) (fun _ => [0, 7]) 9 2).emitted =
      (specGenerate (fun _ => [0, 1]) (fun _ => [5, 3]) 9 2).emitted := by
  have h := C2_theorem (fun _ => [0, 1]) (fun _ => [5, 3]) 9 2
  exact ⟨h.2.1, h.2.2.2 (fun _ => [0, 7])⟩

/-! ## Claim C3 -/

/-- From a loop state whose callback trace equals its produced tokens (and
whose `_new_token_id` is the last produced token), the loop ends with the
trace equal to the produced tokens, plus one extra delivery of the last
produced token exactly when the loop exits through the observed-stop branch. -/
theorem streamGenLoop_spec (next : List Int → Int) (cb : Int → Bool → Bool)
    (eos im_end : Int) (n_predict : Nat) :
    ∀ (fuel : Nat) (s : StreamGenState),
    s.stop_break = false →
    s.callback_trace = s.produced →
    s.new_token_id = s.produced.getLastD 0 →
    (streamGenLoop next cb eos im_end n_predict fuel s).callback_trace =
      (streamGenLoop next cb eos im_end n_predict fuel s).produced ++
        (if (streamGenLoop next cb eos im_end n_predict fuel s).stop_break then
          [(streamGenLoop next cb eos im_end n_predict fuel s).new_token_id] else []) ∧
    (streamGenLoop next cb eos im_end n_predict fuel s).new_token_id =
      (streamGenLoop next cb eos im_end n_predict fuel s).produced.getLastD 0 := by
  intro fuel
  induction fuel with
  | zero =>
    intro s hb ht hn
    simp only [streamGenLoop, hb]
    exact ⟨by simp [ht], hn⟩
  | succ n ih =>
    intro s hb ht hn
    simp only [streamGenLoop]
    split
    · split
      · simp only
        exact ⟨by simp [ht], by simp [hn]⟩
      · exact ih _ rfl (by simp [ht]) (by simp [List.getLastD_concat])
    · simp only [hb]
      exact ⟨by simp [ht], hn⟩

/-- C3, counterexample: with a callback that sets the stop flag on its first
invocation, a first token `7`, `next` constantly `5`, `eos=2`, `im_end=3` and
`n_predict=3`, the produced tokens are `[7]` but the callback receives
`[7, 7]` — token id `7` is delivered twice, refuting exactly-once delivery
when the stop flag is set mid-generation. -/
theorem C3_counterexample :
    (streamGenerate (fun _ => 5) (fun _ _ => true) 2 3 3 [1] 7).callback_trace =
      [7, 7] ∧
    (streamGenerate (fun _ => 5) (fun _ _ => true) 2 3 3 [1] 7).produced = [7] := by
  constructor
  · decide
  · decide

/-- C3, amended: the streamed `api_Generate` invokes the callback once per
produced token, in order, with the produced token id (and the cooperative
stop flag); additionally, when the stop flag is observed set at a loop
iteration boundary, the callback is invoked one extra time with the most
recently produced token id (which is therefore delivered twice) before the
loop exits — otherwise the trace is exactly the produced tokens. -/
theorem C3_theorem (next : List Int → Int) (cb : Int → Bool → Bool)
    (eos im_end : Int) (n_predict : Nat) (input_ids : List Int) (first : Int) :
    (streamGenerate next cb eos im_end n_predict input_ids first).callback_trace =
      (streamGenerate next cb eos im_end n_predict input_ids first).produced ++
        (if (streamGenerate next cb eos im_end n_predict input_ids first).stop_break then
          [(streamGenerate next cb eos im_end n_predict input_ids first).new_token_id]
         else []) ∧
    (streamGenerate next cb eos im_end n_predict input_ids first).new_token_id =
      (streamGenerate next cb eos im_end n_predict input_ids
        first).produced.getLastD 0 := by
  exact streamGenLoop_spec next cb eos im_end n_predict n_predict
    (streamGenInit cb input_ids first) rfl rfl (by simp [streamGenInit])

/-! ## Claim C7 -/

/-- The speculative loop keeps `emitted.length = iter`. -/
theorem specRun_len_eq_iter (draftLogits : List Int → List ℚ) (eos : Int)
    (max_iter : Nat) : ∀ (fuel : Nat) (s : SpecState),
    s.emitted.length = s.iter →
    (specRun draftLogits eos max_iter fuel s).emitted.length =
      (specRun draftLogits eos max_iter fuel s).iter := by
  intro fuel
  induction fuel with
  | zero => intro s h; exact h
  | succ n ih =>
    intro s h
    simp only [specRun]
    split
    · exact ih _ (by simp [specStep, h])
    · exact h

/-- The speculative loop never pushes `iter` above `max_iter`. -/
theorem specRun_iter_le (draftLogits : List Int → List ℚ) (eos : Int)
    (max_iter : Nat) : ∀ (fuel : Nat) (s : SpecState),
    s.iter ≤ max_iter →
    (specRun draftLogits eos max_iter fuel s).iter ≤ max_iter := by
  intro fuel
  induction fuel with
  | zero => intro s h; exact h
  | succ n ih =>
    intro s h
    simp only [specRun]
    split
    · have hlt : s.iter < max_iter := by
        have hc := by assumption
        exact hc.2
      exact ih _ (by simp [specStep]; omega)
    · exact h

/-- A speculative-loop state whose token is the EOS token is terminal. -/
theorem specRun_eos_stop (draftLogits : List Int → List ℚ) (eos : Int)
    (max_iter : Nat) : ∀ (fuel : Nat) (s : SpecState), s.out_token = eos →
    specRun draftLogits eos max_iter fuel s = s := by
  intro fuel s h
  cases fuel with
  | zero => rfl
  | succ n =>
    simp only [specRun]
    rw [if_neg]
    intro hc
    exact hc.1 h

/-- The non-stream generate loop never pushes `output_ids` beyond
`max(current, n_predict)`. -/
theorem genLoop_len_le (next : List Int → Int) (eos im_end : Int)
    (n_predict : Nat) : ∀ (fuel : Nat) (s : GenState),
    (genLoop next eos im_end n_predict fuel s).output_ids.length ≤
      max s.output_ids.length n_predict := by
  intro fuel
  induction fuel with
  | zero => intro s; exact Nat.le_max_left ..
  | succ n ih =>
    intro s
    simp only [genLoop]
    split
    · have hlt : s.output_ids.length < n_predict := by
        have hc := by assumption
        exact hc.2.2.1
      have h := ih (GenState.mk (s.output_ids ++ [next s.history_ids])
        (s.history_ids ++ [next s.history_ids]) (next s.history_ids) s.stop)
      simp only [List.length_append, List.length_cons, List.length_nil] at h
      have hmax : max (s.output_ids.length + 1) n_predict = n_predict :=
        Nat.max_eq_right hlt
      rw [hmax] at h
      exact le_trans h (Nat.le_max_right ..)
    · exact Nat.le_max_left ..

/-- A non-stream-loop state whose token is the EOS token is terminal. -/
theorem genLoop_eos_stop (next : List Int → Int) (eos im_end : Int)
    (n_predict : Nat) : ∀ (fuel : Nat) (s : GenState), s.output_token = eos →
    genLoop next eos im_end n_predict fuel s = s := by
  intro fuel s h
  cases fuel with
  | zero => rfl
  | succ n =>
    simp only [genLoop]
    rw [if_neg]
    intro hc
    exact hc.1 h

/-- C7: both generation decode loops terminate within their configured caps —
the speculative loop emits at most `max_iter` tokens, `api_Generate` produces
at most `n_predict` tokens (when `n_predict ≥ 1`) — and both stop early at a
state whose produced token equals the configured end-of-sequence id. -/
theorem C7_theorem (draftLogits targetLogits : List Int → List ℚ) (eos : Int)
    (max_iter : Nat) (next : List Int → Int) (geos gim_end : Int)
    (n_predict : Nat) (input_ids : List Int) (first : Int) :
    (specGenerate draftLogits targetLogits eos max_iter).emitted.length ≤ max_iter ∧
    (∀ (fuel : Nat) (s : SpecState), s.out_token = eos →
      specRun draftLogits eos max_iter fuel s = s) ∧
    (1 ≤ n_predict →
      (genRun next geos gim_end n_predict input_ids first).output_ids.length ≤
        n_predict) ∧
    (∀ (fuel : Nat) (s : GenState), s.output_token = geos →
      genLoop next geos gim_end n_predict fuel s = s) := by
  refine ⟨?_, specRun_eos_stop draftLogits eos max_iter, ?_,
    genLoop_eos_stop next geos gim_end n_predict⟩
  · have h1 := specRun_len_eq_iter draftLogits eos max_iter max_iter
      (specInit draftLogits targetLogits) rfl
    have h2 := specRun_iter_le draftLogits eos max_iter max_iter
      (specInit draftLogits targetLogits) (by simp [specInit])
    rw [specGenerate, h1]
    exact h2
  · intro hnp
    have h := genLoop_len_le next geos gim_end n_predict n_predict
      (genInit input_ids first)
    simp only [genInit, List.length_cons, List.length_nil] at h
    rw [genRun]
    calc (genLoop next geos gim_end n_predict n_predict
        (genInit input_ids first)).output_ids.length
        ≤ max 1 n_predict := by simpa [genInit] using h
      _ = n_predict := Nat.max_eq_right hnp

/-- C7, witness at concrete inputs. -/
theorem C7_witness :
    (specGenerate (fun _ => [0, 1]) (fun _ => [2, 3]) 5 4).emitted.length ≤ 4 ∧
    specRun (fun _ => [0, 1]) 5 4 3 (SpecState.mk [] [] [] 5 0 0) =
      SpecState.mk [] [] [] 5 0 0 ∧
    (genRun (fun _ => 6) 9 8 2 [1] 7).output_ids.length ≤ 2 ∧
    genLoop (fun _ => 6) 9 8 2 1 (GenState.mk [9] [1, 9] 9 false) =
      GenState.mk [9] [1, 9] 9 false := by
  have h := C7_theorem (fun _ => [0, 1]) (fun _ => [2, 3]) 5 4 (fun _ => 6) 9 8 2 [1] 7
  exact ⟨h.1, h.2.1 3 (SpecState.mk [] [] [] 5 0 0) rfl, h.2.2.1 (by omega),
    h.2.2.2 1 (GenState.mk [9] [1, 9] 9 false) rfl⟩

end OVG
